import Mathlib

deriving instance DecidableEq for Except

/-!
Verification development for the repo-chat-mvp hybrid retrieval system.

Shallow embedding of the core of `src/repo-chat-mvp` (vector_store.py,
chat.py / tmp_chat.py, embedding interface) in Lean 4.  Machine floats of
the source are modelled as rationals; external services (OpenAI doc
generation, embedding, faiss search internals, rank_bm25 scoring) are
modelled as explicit oracle parameters or simple computable stand-ins,
as noted at each definition.
-/

namespace RepoChat

/-! ## Kernel-reducible rational arithmetic

The source manipulates machine floats; they are modelled as rationals.
`Rat.mul`, `Rat.add`, `Rat.sub` are `@[irreducible]`, which blocks `decide`
on concrete instances, so the model uses the classical cross-multiplication
formulas through `Rat.divInt`; the lemmas below prove them equal to the
standard operations. -/

/-- Rational multiplication via `Rat.divInt` (kernel-reducible). -/
def ratMul (a b : Rat) : Rat :=
  Rat.divInt (a.num * b.num) ((a.den : Int) * (b.den : Int))

/-- Rational subtraction via `Rat.divInt` (kernel-reducible). -/
def ratSub (a b : Rat) : Rat :=
  Rat.divInt (a.num * (b.den : Int) - b.num * (a.den : Int)) ((a.den : Int) * (b.den : Int))

/-- Rational addition via `Rat.divInt` (kernel-reducible). -/
def ratAdd (a b : Rat) : Rat :=
  Rat.divInt (a.num * (b.den : Int) + b.num * (a.den : Int)) ((a.den : Int) * (b.den : Int))

/-- Python `int(...)` applied to a rational: truncation toward zero
(`Int.tdiv` truncates toward zero and every `Rat` denominator is positive). -/
def pyInt (q : Rat) : Int := q.num.tdiv q.den

/-! ## Data model: chunk records and embedding items (vector_store.py) -/

/-- One entry of `HybridStore.metadata`: `{"path": ..., "chunk": ...}`. -/
structure ChunkMeta where
  path : String
  chunk : String
deriving DecidableEq, Repr, Inhabited

/-- One element of the `items` argument of `add_embeddings`:
`{"vector": ..., "path": ..., "chunk": ...}`.  Vector components are
modelled as rationals. -/
structure EmbedItem where
  vector : List Rat
  path : String
  chunk : String
deriving DecidableEq, Repr, Inhabited

/-- Model of the faiss index object built by `build_index`:
either `faiss.IndexFlatL2(dim)` or an `IVF{nlist},Flat` index with its
`nprobe` attribute.  `trainedOn` records the vector set passed to
`index.train` (before `index.add`); `stored` the vectors passed to
`index.add`. -/
inductive FaissIndex where
  | flat (dim : Nat) (stored : List (List Rat))
  | ivf (dim nlist nprobe : Nat) (trainedOn : List (List Rat)) (stored : List (List Rat))
deriving DecidableEq, Repr

/-- The vectors held by a faiss index (those passed to `index.add`). -/
def FaissIndex.stored : FaissIndex → List (List Rat)
  | .flat _ st => st
  | .ivf _ _ _ _ st => st

/-- State of `vector_store.HybridStore`: `dim`, `_vectors` (here `vectors`),
`metadata`, `bm25` (modelled by the tokenized corpus the `BM25Okapi` object
was built from, `none` before `build_bm25`), and `index` (`none` before
`build_index`).  The on-disk load in `__init__` is out of scope; this models
a freshly constructed store. -/
structure HybridStore where
  dim : Nat
  vectors : List (List Rat)
  metadata : List ChunkMeta
  bm25 : Option (List (List String))
  index : Option FaissIndex
deriving DecidableEq, Repr

/-- `HybridStore.__init__` when no persisted files exist: empty lists,
`bm25 = None`, `index = None`. -/
def HybridStore.freshStore (dim : Nat) : HybridStore :=
  { dim := dim, vectors := [], metadata := [], bm25 := none, index := none }

/-- `HybridStore.add_embeddings`: one loop iteration appends the vector and
its metadata record as a matched pair (the `np.array(..., dtype="float32")`
conversion is modelled as the identity on the rational model vectors). -/
def add_embeddings (s : HybridStore) (items : List EmbedItem) : HybridStore :=
  items.foldl
    (fun st itm =>
      { st with
        vectors := st.vectors ++ [itm.vector]
        metadata := st.metadata ++ [{ path := itm.path, chunk := itm.chunk }] })
    s

/-- Error raised out of `build_index` by `np.stack` on an empty vector list. -/
inductive BuildErr where
  | valueError (msg : String)
deriving DecidableEq, Repr

/-- `HybridStore.build_index`: `n = vecs.shape[0]`; flat L2 index when
`n < 1000`, otherwise `IVF{nlist},Flat` with
`nlist = int(max(1, min(n, n // 39)))`, `nprobe = min(10, nlist)`, trained
on the full vector set before insertion.  `np.stack` on an empty `_vectors`
raises `ValueError`, modelled as the error case. -/
def build_index (s : HybridStore) : Except BuildErr HybridStore :=
  if s.vectors.isEmpty then
    .error (.valueError "need at least one array to stack")
  else
    let n := s.vectors.length
    if n < 1000 then
      .ok { s with index := some (.flat s.dim s.vectors) }
    else
      let nlist := max 1 (min n (n / 39))
      .ok { s with index := some (.ivf s.dim nlist (min 10 nlist) s.vectors s.vectors) }

/-- Accumulator-based splitter over the character list: `cur` holds the
characters of the word in progress (reversed), `acc` the finished words. -/
def pySplitAux (cur : List Char) (acc : List String) : List Char → List String
  | [] => if cur.isEmpty then acc else acc ++ [⟨cur.reverse⟩]
  | c :: cs =>
    if c.isWhitespace then
      if cur.isEmpty then pySplitAux [] acc cs
      else pySplitAux [] (acc ++ [⟨cur.reverse⟩]) cs
    else pySplitAux (c :: cur) acc cs

/-- Python `str.split()` with no argument: split on whitespace runs,
dropping empty pieces. -/
def pySplit (s : String) : List String :=
  pySplitAux [] [] s.data

/-- `HybridStore.build_bm25`: tokenize every metadata chunk by whitespace
and build the `BM25Okapi` object, modelled by its tokenized corpus. -/
def build_bm25 (s : HybridStore) : HybridStore :=
  { s with bm25 := some (s.metadata.map (fun doc => pySplit doc.chunk)) }

/-! ## Query machinery (HybridStore.query) -/

/-- Squared L2 distance between two model vectors. -/
def sqDist (u v : List Rat) : Rat :=
  ((List.zipWith (fun a b => ratMul (ratSub a b) (ratSub a b)) u v).foldl ratAdd 0)

/-- Stable ascending argsort of a score list (indices ordered by
nondecreasing score).  `np.argsort`'s tie order among equal scores is
implementation-defined; the model uses the stable order. -/
def argsortAsc (scores : List Rat) : List Nat :=
  (List.range scores.length).insertionSort
    (fun i j => scores.getD i 0 ≤ scores.getD j 0)

/-- Model of `self.index.search(q, top_k)`: indices of the `top_k` stored
vectors nearest to `q` by L2 distance.  The IVF probe approximation is
modelled as exact search, and faiss's `-1` padding when `top_k` exceeds the
corpus size is not modelled (the result is simply shorter). -/
def FaissIndex.search (idx : FaissIndex) (q : List Rat) (k : Nat) : List Nat :=
  ((List.range idx.stored.length).insertionSort
    (fun i j => sqDist q (idx.stored.getD i []) ≤ sqDist q (idx.stored.getD j []))).take k

/-- Modelled from the spec: `rank_bm25.BM25Okapi.get_scores` is an external
library; the spec only requires a term-frequency relevance score per chunk,
higher for more query-token occurrences, so the model scores each document
by the number of its tokens that occur among the query tokens.  The fusion
claims do not depend on the scoring formula. -/
def bm25_get_scores (corpus : List (List String)) (qTokens : List String) : List Rat :=
  corpus.map (fun doc => ((doc.filter (fun t => t ∈ qTokens)).length : Rat))

/-- Python list slicing `l[:n]` for a possibly negative `n`. -/
def pyTake (l : List α) (n : Int) : List α :=
  if 0 ≤ n then l.take n.toNat else l.take ((l.length : Int) + n).toNat

/-- `top_bm25_idx = np.argsort(bm25_scores)[::-1][:top_k]`. -/
def bm25TopIdx (corpus : List (List String)) (qTokens : List String) (topK : Nat) : List Nat :=
  ((argsortAsc (bm25_get_scores corpus qTokens)).reverse).take topK

/-- `faiss_hits = [self.metadata[i] for i in I[0]]`. -/
def faissHits (s : HybridStore) (idx : FaissIndex) (qv : List Rat) (topK : Nat) :
    List ChunkMeta :=
  (idx.search qv topK).map (fun i => s.metadata.getD i default)

/-- `bm25_hits = [self.metadata[i] for i in top_bm25_idx]`. -/
def bm25Hits (s : HybridStore) (corpus : List (List String)) (qTokens : List String)
    (topK : Nat) : List ChunkMeta :=
  (bm25TopIdx corpus qTokens topK).map (fun i => s.metadata.getD i default)

/-- `n1 = int(top_k * alpha)` with `alpha` a rational model of the float. -/
def fusionN1 (topK : Nat) (alpha : Rat) : Int :=
  pyInt (ratMul ((topK : Nat) : Rat) alpha)

/-- `merged = faiss_hits[:n1] + bm25_hits[: top_k - n1]`. -/
def mergedCandidates (s : HybridStore) (idx : FaissIndex) (corpus : List (List String))
    (qv : List Rat) (qTokens : List String) (topK : Nat) (alpha : Rat) : List ChunkMeta :=
  pyTake (faissHits s idx qv topK) (fusionN1 topK alpha) ++
    pyTake (bm25Hits s corpus qTokens topK) ((topK : Int) - fusionN1 topK alpha)

/-- The composite deduplication key `(doc["path"], doc["chunk"][:30])`
(Python slices strings by code point). -/
def dedupKey (doc : ChunkMeta) : String × String :=
  (doc.path, ⟨doc.chunk.data.take 30⟩)

/-- The dedup loop of `query`: `seen` is the set of keys already emitted;
only the first occurrence of each key is kept, in order. -/
def dedupFirstAux (seen : List (String × String)) : List ChunkMeta → List ChunkMeta
  | [] => []
  | doc :: docs =>
    if dedupKey doc ∈ seen then dedupFirstAux seen docs
    else doc :: dedupFirstAux (dedupKey doc :: seen) docs

/-- Deduplication keeping the first occurrence of each composite key. -/
def dedupFirst (docs : List ChunkMeta) : List ChunkMeta :=
  dedupFirstAux [] docs

/-- Errors raised by `query`: the explicit `RuntimeError` when the index is
not built, and the `AttributeError` Python raises on `self.bm25.get_scores`
when `bm25` is `None`. -/
inductive QueryErr where
  | runtimeError (msg : String)
  | attributeError (msg : String)
deriving DecidableEq, Repr

/-- `HybridStore.query`: hybrid FAISS + BM25 search with fusion,
deduplication, and truncation to `top_k` results. -/
def query (s : HybridStore) (qv : List Rat) (qTokens : List String)
    (topK : Nat) (alpha : Rat) : Except QueryErr (List ChunkMeta) :=
  match s.index with
  | none => .error (.runtimeError "Index not built; call build_index() first")
  | some idx =>
    match s.bm25 with
    | none => .error (.attributeError "NoneType object has no attribute get_scores")
    | some corpus =>
      .ok ((dedupFirst (mergedCandidates s idx corpus qv qTokens topK alpha)).take topK)

/-! ## Ingest-time mutation sequences (for the alignment invariant) -/

/-- A store mutation: an `add_embeddings` call or a `build_index` call. -/
inductive StoreOp where
  | add (items : List EmbedItem)
  | build
deriving Repr

/-- Apply one mutation.  A `build_index` call that raises (empty vector
list) leaves the store unchanged, as the exception escapes before any field
assignment. -/
def applyOp (s : HybridStore) : StoreOp → HybridStore
  | .add items => add_embeddings s items
  | .build =>
    match build_index s with
    | .ok s2 => s2
    | .error _ => s

/-- Run a sequence of mutations on a freshly constructed store. -/
def runOps (dim : Nat) (ops : List StoreOp) : HybridStore :=
  ops.foldl applyOp (HybridStore.freshStore dim)

/-- All items passed to `add_embeddings` across a mutation sequence,
in order. -/
def addedItems (ops : List StoreOp) : List EmbedItem :=
  (ops.map (fun op => match op with | .add items => items | .build => [])).flatten

/-! ## Embedding cache (chat.py / tmp_chat.py) -/

/-- A cache entry: the embedding vector and the chunk text it was computed
from (`{"vector": ..., "chunk": ...}`). -/
structure CacheEntry where
  vector : List Rat
  chunk : String
deriving DecidableEq, Repr

/-- The embedding cache, a Python dict from chunk id to entry, modelled as
an association list where the most recent binding of a key shadows older
ones (Python dict assignment overwrites). -/
abbrev EmbedsCache := List (String × CacheEntry)

/-- Dict lookup `cache[cid]` / `cid in cache`. -/
def cacheLookup (cache : EmbedsCache) (key : String) : Option CacheEntry :=
  (cache.find? (fun kv => kv.1 == key)).map (fun kv => kv.2)

/-- Dict assignment `cache[cid] = entry`: the new binding shadows any old
one under `cacheLookup`. -/
def cacheInsert (cache : EmbedsCache) (key : String) (v : CacheEntry) : EmbedsCache :=
  (key, v) :: cache

/-- State of the cache file on disk, as seen by `load_embed_cache`:
absent, present but not unpicklable, or present and valid. -/
inductive DiskFile (α : Type) where
  | absent
  | corrupt
  | valid (contents : α)
deriving DecidableEq, Repr

/-- The exception `pickle.load` raises on a corrupted file. -/
inductive PickleErr where
  | unpicklingError
deriving DecidableEq, Repr

/-- `load_embed_cache`: if the file exists, `pickle.load` it (raising if it
is corrupted); otherwise return the empty dict.  There is no exception
handler around `pickle.load`. -/
def load_embed_cache (disk : DiskFile EmbedsCache) : Except PickleErr EmbedsCache :=
  match disk with
  | .absent => .ok []
  | .corrupt => .error .unpicklingError
  | .valid contents => .ok contents

/-- `chunk_id(item)`: `f"{item['path']}::{h}"` where `h` is the sha256 hex
digest of the chunk text; the digest function is an explicit parameter of
the model. -/
def chunk_id (hash : String → String) (path chunk : String) : String :=
  path ++ "::" ++ hash chunk

/-! ## generate_doc with retry/backoff (tmp_chat.py) -/

/-- `MAX_RETRIES = 5`. -/
def MAX_RETRIES : Nat := 5

/-- Terminal failures of `generate_doc`: the re-raised `RateLimitError`
after the last attempt, and the unreachable fallthrough `RuntimeError`. -/
inductive GenErr where
  | rateLimitError
  | runtimeError (msg : String)
deriving DecidableEq, Repr

/-- Observable outcome of one `generate_doc` call: its result, the number
of attempts made against the external service, and the `time.sleep`
durations in order (the backoff values used between attempts). -/
structure GenOutcome where
  result : Except GenErr String
  attemptsMade : Nat
  sleeps : List Nat
deriving DecidableEq, Repr

/-- The retry loop of `generate_doc` in tmp_chat.py.  `call n` models the
`client.chat.completions.create` call on attempt number `n`
(`.error ()` is a `RateLimitError`).  `fuel` is the number of loop
iterations left (`maxRetries - attempt + 1`); the fuel-exhausted case is
the unreachable `raise RuntimeError` after the `for` loop. -/
def generate_doc_loop (call : Nat → Except Unit String) (maxRetries : Nat) :
    Nat → Nat → Nat → GenOutcome
  | _, _, 0 => ⟨.error (.runtimeError "Failed to generate doc after retries"), 0, []⟩
  | attempt, backoff, fuel + 1 =>
    match call attempt with
    | .ok text => ⟨.ok text, 1, []⟩
    | .error _ =>
      if attempt = maxRetries then ⟨.error .rateLimitError, 1, []⟩
      else
        let r := generate_doc_loop call maxRetries (attempt + 1) (backoff * 2) fuel
        ⟨r.result, r.attemptsMade + 1, backoff :: r.sleeps⟩

/-- `generate_doc` (tmp_chat.py): `backoff = 1`, attempts numbered
`1..MAX_RETRIES`.  The decorator-enforced 1-call-per-2-seconds pacing is
real-time behaviour outside the model. -/
def generate_doc (call : Nat → Except Unit String) : GenOutcome :=
  generate_doc_loop call MAX_RETRIES 1 1 MAX_RETRIES

/-- A pool of generation tasks: each submitted task runs `generate_doc`
against its own call oracle; outcomes are independent across tasks. -/
def runTasks (calls : List (Nat → Except Unit String)) : List GenOutcome :=
  calls.map generate_doc

/-! ## ChatCore.ingest (chat.py / tmp_chat.py) -/

/-- One definition record from `parse_directory`:
`{"path": ..., "name": ..., "type": ..., "code": ...}`. -/
structure Defn where
  path : String
  name : String
  dtype : String
  code : String
deriving DecidableEq, Repr

/-- The item path for a definition-level chunk: `f"{d['path']}::{d['name']}"`. -/
def defnItemPath (d : Defn) : String := d.path ++ "::" ++ d.name

/-- The item path for a module-level chunk: `f"{path}::file"`. -/
def modItemPath (p : String) : String := p ++ "::file"

/-- A cache-miss item queued for batch embedding
(`{**item, "cid": cid}` appended to `new_items`). -/
structure NewItem where
  path : String
  chunk : String
  cid : String
deriving DecidableEq, Repr

/-- The per-definition phase of `ingest`: for each definition, call
`generate_doc` (always — the call is submitted before any cache check),
build the item, compute its `chunk_id` from the freshly generated text,
and classify it as a cache hit (append the stored pair to `all_embeds`) or
a miss (append to `new_items`).  The third component records one entry per
`generate_doc` invocation.  A generation failure re-raises out of
`future.result()` with no handler, aborting the whole call (reported as
`.error`); the nondeterministic completion order of the thread pool is
modelled as submission order, which the claims do not depend on. -/
def ingestDefs (hash : String → String) (gen : Defn → Except Unit String)
    (cache : EmbedsCache) :
    List Defn → Except Unit (List EmbedItem × List NewItem × List String)
  | [] => .ok ([], [], [])
  | d :: ds =>
    match gen d with
    | .error _ => .error ()
    | .ok docText =>
      match ingestDefs hash gen cache ds with
      | .error _ => .error ()
      | .ok (embeds, news, calls) =>
        let ipath := defnItemPath d
        let cid := chunk_id hash ipath docText
        match cacheLookup cache cid with
        | some entry =>
          .ok ({ vector := entry.vector, path := ipath, chunk := entry.chunk } :: embeds,
               news, ipath :: calls)
        | none =>
          .ok (embeds, { path := ipath, chunk := docText, cid := cid } :: news,
               ipath :: calls)

/-- The module-level phase of `ingest`: one `generate_doc` call per source
file, item path `f"{path}::file"`, with the same hit/miss classification as
the per-definition phase. -/
def ingestMods (hash : String → String) (genMod : String → Except Unit String)
    (cache : EmbedsCache) :
    List String → Except Unit (List EmbedItem × List NewItem × List String)
  | [] => .ok ([], [], [])
  | p :: ps =>
    match genMod p with
    | .error _ => .error ()
    | .ok docText =>
      match ingestMods hash genMod cache ps with
      | .error _ => .error ()
      | .ok (embeds, news, calls) =>
        let ipath := modItemPath p
        let cid := chunk_id hash ipath docText
        match cacheLookup cache cid with
        | some entry =>
          .ok ({ vector := entry.vector, path := ipath, chunk := entry.chunk } :: embeds,
               news, ipath :: calls)
        | none =>
          .ok (embeds, { path := ipath, chunk := docText, cid := cid } :: news,
               ipath :: calls)

/-- First-occurrence deduplication of a path list, matching the insertion
order of `defaultdict` keys in `defs_by_file`. -/
def firstOccAux (seen : List String) : List String → List String
  | [] => []
  | p :: ps => if p ∈ seen then firstOccAux seen ps else p :: firstOccAux (p :: seen) ps

/-- The module paths iterated by the module-level phase: distinct `d["path"]`
values in first-occurrence order. -/
def modulePaths (defs : List Defn) : List String :=
  firstOccAux [] (defs.map (fun d => d.path))

/-- Observable outcome of one `ingest` run: the items fed to
`add_embeddings`, the cache as saved by `save_embed_cache`, one entry per
`generate_doc` invocation, the number of embedding-service batch calls,
and the chunk texts sent to the embedding batch. -/
structure IngestOut where
  allEmbeds : List EmbedItem
  cacheOut : EmbedsCache
  genCalls : List String
  embedBatches : Nat
  embeddedTexts : List String
deriving DecidableEq, Repr

/-- `ChatCore.ingest`: per-definition docs, module-level docs, one
embedding batch over all cache misses (`embed_texts` called only when
`new_items` is nonempty), cache update, store update.  `embedVec` models
the embedding service on a chunk text.  Disk writes of the generated
markdown and the store rebuild/persist are outside the observable record. -/
def ingestRun (hash : String → String) (gen : Defn → Except Unit String)
    (genMod : String → Except Unit String) (embedVec : String → List Rat)
    (defs : List Defn) (cache : EmbedsCache) : Except Unit IngestOut :=
  match ingestDefs hash gen cache defs with
  | .error _ => .error ()
  | .ok (embedsDefs, newsDefs, callsDefs) =>
    match ingestMods hash genMod cache (modulePaths defs) with
    | .error _ => .error ()
    | .ok (embedsMods, newsMods, callsMods) =>
      let news := newsDefs ++ newsMods
      let fresh := news.map (fun it =>
        { vector := embedVec it.chunk, path := it.path, chunk := it.chunk : EmbedItem })
      let cache2 := news.foldl
        (fun c it => cacheInsert c it.cid { vector := embedVec it.chunk, chunk := it.chunk })
        cache
      .ok { allEmbeds := embedsDefs ++ embedsMods ++ fresh
          , cacheOut := cache2
          , genCalls := callsDefs ++ callsMods
          , embedBatches := if news.isEmpty then 0 else 1
          , embeddedTexts := news.map (fun it => it.chunk) }

/-! ## is_allowed_repo (chat.py / tmp_chat.py) -/

/-- Scan a character list for the first `//` and return what follows it. -/
def afterDoubleSlash : List Char → Option (List Char)
  | [] => none
  | '/' :: '/' :: rest => some rest
  | _ :: rest => afterDoubleSlash rest

/-- Modelled from Python's `urllib.parse.urlparse(url).netloc` for URLs of
the usual `scheme://host/path` shape: the substring after the first `//` up
to the next `/`, `?` or `#`, and empty when the URL contains no `//`. -/
def netloc (url : String) : String :=
  match afterDoubleSlash url.data with
  | none => ""
  | some rest => ⟨rest.takeWhile (fun c => !(c == '/' || c == '?' || c == '#'))⟩

/-- Python `str.lower()`, character by character. -/
def pyLower (s : String) : String := ⟨s.data.map Char.toLower⟩

/-- Python `str.endswith(suffix)`. -/
def pyEndsWith (s suffixStr : String) : Bool := suffixStr.data.isSuffixOf s.data

/-- `ALLOWED_DOMAINS = ["github.com"]`. -/
def ALLOWED_DOMAINS : List String := ["github.com"]

/-- `is_allowed_repo`: lowercase the URL's netloc and test whether it ends
with any allowed domain string. -/
def is_allowed_repo (repoUrl : String) : Bool :=
  let host := pyLower (netloc repoUrl)
  ALLOWED_DOMAINS.any (fun d => pyEndsWith host d)

/-- Cache-hit contribution of one definition: the stored pair appended to
`all_embeds` when its `chunk_id` is in the cache. -/
def defHit (hash : String → String) (gen : Defn → String) (cache : EmbedsCache)
    (d : Defn) : Option EmbedItem :=
  (cacheLookup cache (chunk_id hash (defnItemPath d) (gen d))).map
    (fun entry => { vector := entry.vector, path := defnItemPath d, chunk := entry.chunk })

/-- Cache-miss contribution of one definition: the `new_items` record when
its `chunk_id` is absent from the cache. -/
def defMiss (hash : String → String) (gen : Defn → String) (cache : EmbedsCache)
    (d : Defn) : Option NewItem :=
  match cacheLookup cache (chunk_id hash (defnItemPath d) (gen d)) with
  | some _ => none
  | none => some { path := defnItemPath d, chunk := gen d,
                   cid := chunk_id hash (defnItemPath d) (gen d) }

/-- Cache-hit contribution of one module path. -/
def modHit (hash : String → String) (genMod : String → String) (cache : EmbedsCache)
    (p : String) : Option EmbedItem :=
  (cacheLookup cache (chunk_id hash (modItemPath p) (genMod p))).map
    (fun entry => { vector := entry.vector, path := modItemPath p, chunk := entry.chunk })

/-- Cache-miss contribution of one module path. -/
def modMiss (hash : String → String) (genMod : String → String) (cache : EmbedsCache)
    (p : String) : Option NewItem :=
  match cacheLookup cache (chunk_id hash (modItemPath p) (genMod p)) with
  | some _ => none
  | none => some { path := modItemPath p, chunk := genMod p,
                   cid := chunk_id hash (modItemPath p) (genMod p) }

/-- The cache-miss items of an `ingestRun` with total generation oracles:
definition-phase misses followed by module-phase misses. -/
def runNews (hash : String → String) (gen : Defn → String) (genMod : String → String)
    (defs : List Defn) (cache : EmbedsCache) : List NewItem :=
  defs.filterMap (defMiss hash gen cache) ++
    (modulePaths defs).filterMap (modMiss hash genMod cache)

/-- One-definition repository for the C1 example runs. -/
def c1Defs : List Defn :=
  [{ path := "f.py", name := "foo", dtype := "function", code := "pass" }]

/-- A default run outcome (used only to extract from `Except`). -/
def emptyOut : IngestOut :=
  { allEmbeds := [], cacheOut := [], genCalls := [], embedBatches := 0, embeddedTexts := [] }

/-- Outcome of the first C1 ingestion run, starting from an empty cache,
with deterministic oracles (identity digest, constant generators). -/
def c1Out1 : IngestOut :=
  (ingestRun (fun s => s) (fun _ => .ok "DOC") (fun _ => .ok "MOD")
    (fun _ => [1]) c1Defs []).toOption.getD emptyOut

/-- Outcome of the second C1 ingestion run, starting from the cache the
first run saved. -/
def c1Out2 : IngestOut :=
  (ingestRun (fun s => s) (fun _ => .ok "DOC") (fun _ => .ok "MOD")
    (fun _ => [1]) c1Defs c1Out1.cacheOut).toOption.getD emptyOut

/-- Two-definition repository for the C2 example run; generation of the
definition named `bad` fails terminally. -/
def c2Defs : List Defn :=
  [{ path := "f.py", name := "bad", dtype := "function", code := "x" },
   { path := "f.py", name := "good", dtype := "function", code := "y" }]

/-! ## Theorems -/

theorem ratMul_eq (a b : Rat) : ratMul a b = a * b := by
  rw [ratMul]
  conv_rhs => rw [← Rat.num_divInt_den a, ← Rat.num_divInt_den b, Rat.divInt_mul_divInt']

theorem ratSub_eq (a b : Rat) : ratSub a b = a - b := by
  rw [ratSub]
  conv_rhs => rw [← Rat.num_divInt_den a, ← Rat.num_divInt_den b,
    Rat.divInt_sub_divInt _ _ (by exact_mod_cast a.den_nz) (by exact_mod_cast b.den_nz)]

theorem ratAdd_eq (a b : Rat) : ratAdd a b = a + b := by
  rw [ratAdd]
  conv_rhs => rw [← Rat.num_divInt_den a, ← Rat.num_divInt_den b,
    Rat.divInt_add_divInt _ _ (by exact_mod_cast a.den_nz) (by exact_mod_cast b.den_nz)]

/-- On nonnegative rationals, Python `int(...)` truncation agrees with the
mathematical floor. -/
theorem pyInt_eq_floor (q : Rat) (h : 0 ≤ q) : pyInt q = ⌊q⌋ := by
  rw [pyInt, Rat.floor_def, Int.tdiv_eq_ediv]
  · exact Rat.num_nonneg.mpr h
  · exact Int.natCast_nonneg _


/-- C3 counterexample: loading a present-but-corrupted cache file does not
yield an empty cache — `pickle.load` has no exception handler, so the
deserialization error escapes `load_embed_cache`. -/
theorem c3_counterexample :
    load_embed_cache (DiskFile.corrupt : DiskFile EmbedsCache) = .error .unpicklingError ∧
    load_embed_cache (DiskFile.corrupt : DiskFile EmbedsCache) ≠ .ok ([] : EmbedsCache) := by
  exact ⟨rfl, by decide⟩

/-- C3 (amended): loading the embedding cache yields an empty cache when
the backing file is absent, but a present-but-corrupted file raises the
deserialization exception out of `load_embed_cache`; a valid file yields
its contents. -/
theorem c3_load_embed_cache :
    load_embed_cache (DiskFile.absent : DiskFile EmbedsCache) = .ok [] ∧
    load_embed_cache (DiskFile.corrupt : DiskFile EmbedsCache) = .error .unpicklingError ∧
    ∀ contents : EmbedsCache, load_embed_cache (.valid contents) = .ok contents := by
  exact ⟨rfl, rfl, fun _ => rfl⟩

/-- C10: `is_allowed_repo` returns `true` exactly when the lowercased
netloc of the URL ends with the string `github.com`; in particular it
accepts `evilgithub.com`, whose host is neither `github.com` nor one of
its subdomains. -/
theorem c10_is_allowed_repo :
    (∀ url : String,
      is_allowed_repo url = pyEndsWith (pyLower (netloc url)) "github.com") ∧
    netloc "https://evilgithub.com/owner/repo" = "evilgithub.com" ∧
    is_allowed_repo "https://evilgithub.com/owner/repo" = true ∧
    is_allowed_repo "https://github.com/owner/repo" = true ∧
    is_allowed_repo "https://gitlab.com/owner/repo" = false := by
  refine ⟨fun url => ?_, by decide, by decide, by decide, by decide⟩
  simp [is_allowed_repo, ALLOWED_DOMAINS]

/-- C9: querying a store whose index has not been built raises
`RuntimeError("Index not built; call build_index() first")`, and querying
before `build_bm25` is likewise an error (the `AttributeError` from
`None.get_scores`); `query` performs no retry in either case. -/
theorem c9_query_before_build (s : HybridStore) (qv : List Rat)
    (qTokens : List String) (topK : Nat) (alpha : Rat) :
    (s.index = none →
      query s qv qTokens topK alpha =
        .error (.runtimeError "Index not built; call build_index() first")) ∧
    (s.bm25 = none → ∃ e, query s qv qTokens topK alpha = .error e) := by
  constructor
  · intro h
    simp [query, h]
  · intro h
    cases hidx : s.index with
    | none =>
        exact ⟨.runtimeError "Index not built; call build_index() first",
          by simp [query, hidx]⟩
    | some idx =>
        exact ⟨.attributeError "NoneType object has no attribute get_scores",
          by simp [query, hidx, h]⟩

/-- Witness for C9 at a freshly constructed store. -/
theorem c9_witness :
    (HybridStore.freshStore 1536).index = none ∧
    query (HybridStore.freshStore 1536) [] [] 5 (mkRat 1 4) =
      .error (.runtimeError "Index not built; call build_index() first") := by
  exact ⟨rfl, (c9_query_before_build (HybridStore.freshStore 1536) [] [] 5 (mkRat 1 4)).1 rfl⟩

/-- C7: `build_index` builds an exact flat L2 index below 1000 vectors and
an IVF index with `nlist = max(1, min(n, n // 39))` and
`nprobe = min(10, nlist)`, trained on the full vector set, at 1000 and
above; at `n = 999` the structure is flat, and at `n = 1000` it is IVF
with `nlist = 25` (and `nprobe = 10`). -/
theorem c7_build_index_threshold (s : HybridStore) (h : s.vectors ≠ []) :
    (s.vectors.length < 1000 →
      build_index s = .ok { s with index := some (.flat s.dim s.vectors) }) ∧
    (1000 ≤ s.vectors.length →
      build_index s = .ok { s with index := some (.ivf s.dim
        (max 1 (min s.vectors.length (s.vectors.length / 39)))
        (min 10 (max 1 (min s.vectors.length (s.vectors.length / 39))))
        s.vectors s.vectors) }) ∧
    (s.vectors.length = 999 →
      build_index s = .ok { s with index := some (.flat s.dim s.vectors) }) ∧
    (s.vectors.length = 1000 →
      build_index s = .ok { s with index := some (.ivf s.dim 25 10 s.vectors s.vectors) }) := by
  have hne : s.vectors.isEmpty = false := by
    simpa [List.isEmpty_iff] using h
  refine ⟨fun hlt => ?_, fun hge => ?_, fun heq => ?_, fun heq => ?_⟩
  · simp [build_index, hne, hlt]
  · simp [build_index, hne, Nat.not_lt.mpr hge]
  · simp [build_index, hne, heq]
  · simp [build_index, hne, heq]

/-- A one-vector store for the C7 witness. -/
def c7Store : HybridStore :=
  { dim := 2, vectors := [[0, 0]], metadata := [{ path := "a", chunk := "x" }],
    bm25 := none, index := none }

/-- Witness for C7: a single-vector corpus builds the flat structure. -/
theorem c7_witness :
    c7Store.vectors ≠ [] ∧
    build_index c7Store = .ok { c7Store with index := some (.flat c7Store.dim c7Store.vectors) } := by
  exact ⟨by decide, (c7_build_index_threshold c7Store (by decide)).1 (by decide)⟩

/-- `add_embeddings` appends each item's vector and metadata record as a
matched pair: closed form. -/
theorem add_embeddings_spec (s : HybridStore) (items : List EmbedItem) :
    add_embeddings s items =
      { s with vectors := s.vectors ++ items.map (fun it => it.vector),
               metadata := s.metadata ++
                 items.map (fun it => ChunkMeta.mk it.path it.chunk) } := by
  induction items generalizing s with
  | nil => simp [add_embeddings]
  | cons it its ih =>
    have hstep : add_embeddings s (it :: its) =
        add_embeddings
          { s with vectors := s.vectors ++ [it.vector],
                   metadata := s.metadata ++ [ChunkMeta.mk it.path it.chunk] } its := rfl
    rw [hstep, ih]
    simp

/-- A successful `build_index` changes only the `index` field. -/
theorem build_index_ok_fields (s s2 : HybridStore) (h : build_index s = .ok s2) :
    s2.vectors = s.vectors ∧ s2.metadata = s.metadata := by
  unfold build_index at h
  split at h
  · cases h
  · dsimp only at h
    split at h
    · cases h; exact ⟨rfl, rfl⟩
    · cases h; exact ⟨rfl, rfl⟩

/-- A `build_index` call (even a failing one) never changes the `vectors`
or `metadata` fields. -/
theorem applyOp_build_fields (s : HybridStore) :
    (applyOp s .build).vectors = s.vectors ∧ (applyOp s .build).metadata = s.metadata := by
  cases hb : build_index s with
  | ok s2 => simpa [applyOp, hb] using build_index_ok_fields s s2 hb
  | error e => simp [applyOp, hb]

/-- Running any mutation sequence appends exactly the added items' vectors
and metadata records, in order, to the starting store. -/
theorem foldl_applyOp_fields (ops : List StoreOp) (s : HybridStore) :
    (ops.foldl applyOp s).vectors =
      s.vectors ++ (addedItems ops).map (fun it => it.vector) ∧
    (ops.foldl applyOp s).metadata =
      s.metadata ++ (addedItems ops).map (fun it => ChunkMeta.mk it.path it.chunk) := by
  induction ops generalizing s with
  | nil => simp [addedItems]
  | cons op ops ih =>
    cases op with
    | add items =>
      have h := ih (applyOp s (.add items))
      have ha : applyOp s (.add items) = add_embeddings s items := rfl
      rw [List.foldl_cons, h.1, h.2, ha, add_embeddings_spec] at *
      simp [addedItems]
    | build =>
      have h := ih (applyOp s .build)
      have hb := applyOp_build_fields s
      rw [List.foldl_cons, h.1, h.2, hb.1, hb.2]
      simp [addedItems]

/-- C4: after any sequence of `add_embeddings` and `build_index` calls on a
fresh store, `vectors` and `metadata` are the parallel images of the added
items, have equal lengths, and at every index hold the matched
vector/record pair of the same item. -/
theorem c4_alignment (dim : Nat) (ops : List StoreOp) :
    (runOps dim ops).vectors = (addedItems ops).map (fun it => it.vector) ∧
    (runOps dim ops).metadata =
      (addedItems ops).map (fun it => ChunkMeta.mk it.path it.chunk) ∧
    (runOps dim ops).vectors.length = (runOps dim ops).metadata.length ∧
    ∀ i : Nat, i < (addedItems ops).length →
      (runOps dim ops).vectors.getD i [] = ((addedItems ops).getD i default).vector ∧
      (runOps dim ops).metadata.getD i default =
        ChunkMeta.mk ((addedItems ops).getD i default).path
          ((addedItems ops).getD i default).chunk := by
  have h := foldl_applyOp_fields ops (HybridStore.freshStore dim)
  have hv : (runOps dim ops).vectors = (addedItems ops).map (fun it => it.vector) := by
    simpa [runOps, HybridStore.freshStore] using h.1
  have hm : (runOps dim ops).metadata =
      (addedItems ops).map (fun it => ChunkMeta.mk it.path it.chunk) := by
    simpa [runOps, HybridStore.freshStore] using h.2
  refine ⟨hv, hm, by rw [hv, hm]; simp, fun i hi => ?_⟩
  constructor
  · rw [hv]
    simp [List.getD, List.getElem?_map, List.getElem?_eq_getElem hi]
  · rw [hm]
    simp [List.getD, List.getElem?_map, List.getElem?_eq_getElem hi]

/-- Mutation sequence for the C4 witness. -/
def c4Ops : List StoreOp :=
  [.add [{ vector := [1, 2], path := "p", chunk := "c" }], .build]

/-- Witness for C4 at a concrete one-item sequence. -/
theorem c4_witness :
    0 < (addedItems c4Ops).length ∧
    ((runOps 2 c4Ops).vectors.getD 0 [] = ((addedItems c4Ops).getD 0 default).vector ∧
     (runOps 2 c4Ops).metadata.getD 0 default =
       ChunkMeta.mk ((addedItems c4Ops).getD 0 default).path
         ((addedItems c4Ops).getD 0 default).chunk) := by
  exact ⟨by decide, (c4_alignment 2 c4Ops).2.2.2 0 (by decide)⟩

/-- C5: the merged candidate list before deduplication is exactly the first
`n1 = floor(topK * alpha)` vector hits followed by the first `topK - n1`
BM25 hits, for any `0 ≤ alpha ≤ 1`; at `topK = 10`, `alpha = 1/4` the
split is 2 vector-prefix candidates followed by 8 lexical-prefix
candidates. -/
theorem c5_fusion_ordering (s : HybridStore) (idx : FaissIndex)
    (corpus : List (List String)) (qv : List Rat) (qTokens : List String)
    (topK : Nat) (alpha : Rat) (h0 : 0 ≤ alpha) (h1 : alpha ≤ 1) :
    mergedCandidates s idx corpus qv qTokens topK alpha =
      (faissHits s idx qv topK).take (⌊(topK : Rat) * alpha⌋).toNat ++
        (bm25Hits s corpus qTokens topK).take
          (topK - (⌊(topK : Rat) * alpha⌋).toNat) ∧
    mergedCandidates s idx corpus qv qTokens 10 (mkRat 1 4) =
      (faissHits s idx qv 10).take 2 ++ (bm25Hits s corpus qTokens 10).take 8 := by
  constructor
  · have hmul : (0 : Rat) ≤ (topK : Rat) * alpha :=
      mul_nonneg (Nat.cast_nonneg topK) h0
    have hn1 : fusionN1 topK alpha = ⌊(topK : Rat) * alpha⌋ := by
      rw [fusionN1, ratMul_eq, pyInt_eq_floor _ hmul]
    have hfl0 : 0 ≤ ⌊(topK : Rat) * alpha⌋ := Int.floor_nonneg.mpr hmul
    have hle : (topK : Rat) * alpha ≤ (topK : Rat) := by
      calc (topK : Rat) * alpha ≤ (topK : Rat) * 1 :=
            mul_le_mul_of_nonneg_left h1 (Nat.cast_nonneg topK)
        _ = (topK : Rat) := mul_one _
    have hfl1 : ⌊(topK : Rat) * alpha⌋ ≤ (topK : Int) := by
      calc ⌊(topK : Rat) * alpha⌋ ≤ ⌊(topK : Rat)⌋ := Int.floor_le_floor hle
        _ = (topK : Int) := Int.floor_natCast topK
    have htn : ((topK : Int) - ⌊(topK : Rat) * alpha⌋).toNat =
        topK - (⌊(topK : Rat) * alpha⌋).toNat := by omega
    rw [mergedCandidates, hn1, pyTake, if_pos hfl0, pyTake, if_pos (by omega), htn]
  · have h2 : fusionN1 10 (mkRat 1 4) = 2 := by decide
    rw [mergedCandidates, h2]
    norm_num [pyTake]
    rfl

/-- A tiny built store shared by the fusion/dedup witnesses. -/
def wStore : HybridStore :=
  build_bm25 (applyOp (applyOp (HybridStore.freshStore 1)
    (.add [{ vector := [0], path := "a", chunk := "x" },
           { vector := [3], path := "b", chunk := "y z" }])) .build)

/-- The index of `wStore`. -/
def wIdx : FaissIndex := .flat 1 [[0], [3]]

/-- The tokenized corpus of `wStore`. -/
def wCorpus : List (List String) := [["x"], ["y", "z"]]

/-- Witness for C5 at `topK = 10`, `alpha = 1/4` on a concrete store. -/
theorem c5_witness :
    ((0 : Rat) ≤ mkRat 1 4 ∧ mkRat 1 4 ≤ 1) ∧
    mergedCandidates wStore wIdx wCorpus [0] ["x"] 10 (mkRat 1 4) =
      (faissHits wStore wIdx [0] 10).take 2 ++
        (bm25Hits wStore wCorpus ["x"] 10).take 8 := by
  exact ⟨⟨by decide, by decide⟩,
    (c5_fusion_ordering wStore wIdx wCorpus [0] ["x"] 10 (mkRat 1 4)
      (by decide) (by decide)).2⟩

/-- Every document emitted by the dedup loop has a key outside `seen`. -/
theorem dedupFirstAux_not_mem_seen (docs : List ChunkMeta) :
    ∀ seen : List (String × String), ∀ doc ∈ dedupFirstAux seen docs,
      dedupKey doc ∉ seen := by
  induction docs with
  | nil => intro seen doc hd; simp [dedupFirstAux] at hd
  | cons d ds ih =>
    intro seen doc hd
    simp only [dedupFirstAux] at hd
    by_cases hk : dedupKey d ∈ seen
    · rw [if_pos hk] at hd
      exact ih seen doc hd
    · rw [if_neg hk] at hd
      rcases List.mem_cons.mp hd with rfl | hmem
      · exact hk
      · have hrec := ih (dedupKey d :: seen) doc hmem
        exact fun hs => hrec (List.mem_cons_of_mem _ hs)

/-- The dedup loop never emits two documents with the same key. -/
theorem dedupFirstAux_pairwise (docs : List ChunkMeta) :
    ∀ seen : List (String × String),
      (dedupFirstAux seen docs).Pairwise (fun a b => dedupKey a ≠ dedupKey b) := by
  induction docs with
  | nil => intro seen; simp [dedupFirstAux]
  | cons d ds ih =>
    intro seen
    simp only [dedupFirstAux]
    by_cases hk : dedupKey d ∈ seen
    · rw [if_pos hk]
      exact ih seen
    · rw [if_neg hk]
      refine List.Pairwise.cons ?_ (ih (dedupKey d :: seen))
      intro b hb hEq
      have hrec := dedupFirstAux_not_mem_seen ds (dedupKey d :: seen) b hb
      exact hrec (hEq ▸ List.mem_cons_self _ _)

/-- The dedup loop emits a sublist of its input (order preserved). -/
theorem dedupFirstAux_sublist (docs : List ChunkMeta) :
    ∀ seen : List (String × String), (dedupFirstAux seen docs).Sublist docs := by
  induction docs with
  | nil => intro seen; simp [dedupFirstAux]
  | cons d ds ih =>
    intro seen
    simp only [dedupFirstAux]
    by_cases hk : dedupKey d ∈ seen
    · rw [if_pos hk]
      exact (ih seen).cons d
    · rw [if_neg hk]
      exact (ih (dedupKey d :: seen)).cons₂ d

/-- C6: a successful query result never contains two entries with the same
`(path, first-30-characters)` key, is an order-preserving sublist of the
merged candidate list (so dedup keeps only first occurrences and nothing is
backfilled), and has at most `topK` entries. -/
theorem c6_dedup (s : HybridStore) (qv : List Rat) (qTokens : List String)
    (topK : Nat) (alpha : Rat) (res : List ChunkMeta)
    (h : query s qv qTokens topK alpha = .ok res) :
    res.Pairwise (fun a b => dedupKey a ≠ dedupKey b) ∧
    (∃ idx corpus, s.index = some idx ∧ s.bm25 = some corpus ∧
      res.Sublist (mergedCandidates s idx corpus qv qTokens topK alpha)) ∧
    res.length ≤ topK := by
  cases hidx : s.index with
  | none => simp [query, hidx] at h
  | some idx =>
    cases hbm : s.bm25 with
    | none => simp [query, hidx, hbm] at h
    | some corpus =>
      simp only [query, hidx, hbm] at h
      have hres : res =
          (dedupFirst (mergedCandidates s idx corpus qv qTokens topK alpha)).take topK := by
        cases h
        rfl
      subst hres
      refine ⟨?_, ⟨idx, corpus, rfl, rfl, ?_⟩, ?_⟩
      · exact (dedupFirstAux_pairwise _ []).sublist (List.take_sublist _ _)
      · exact (List.take_sublist _ _).trans (dedupFirstAux_sublist _ [])
      · exact List.length_take_le _ _

/-- Witness for C6 on a concrete two-chunk store. -/
theorem c6_witness :
    query wStore [0] ["x"] 2 (mkRat 1 4) =
      .ok [{ path := "a", chunk := "x" }, { path := "b", chunk := "y z" }] ∧
    ([{ path := "a", chunk := "x" }, { path := "b", chunk := "y z" }] :
        List ChunkMeta).Pairwise (fun a b => dedupKey a ≠ dedupKey b) ∧
    ([{ path := "a", chunk := "x" }, { path := "b", chunk := "y z" }] :
        List ChunkMeta).length ≤ 2 := by
  refine ⟨by decide, ?_, ?_⟩
  · exact (c6_dedup wStore [0] ["x"] 2 (mkRat 1 4) _ (by decide)).1
  · exact (c6_dedup wStore [0] ["x"] 2 (mkRat 1 4) _ (by decide)).2.2

/-- C8: a `generate_doc` call whose external call rate-limits on every
attempt sleeps with doubling backoff between attempts, makes exactly
`MAX_RETRIES` attempts, and surfaces the rate-limit error terminally; a
pool of tasks maps each task to its own outcome, so one task's failure
leaves sibling outcomes untouched. -/
theorem c8_retry_exhaustion (call : Nat → Except Unit String)
    (h : ∀ n, call n = .error ()) :
    (generate_doc call).result = .error .rateLimitError ∧
    (generate_doc call).attemptsMade = MAX_RETRIES ∧
    (generate_doc call).sleeps = [1, 2, 4, 8] ∧
    ∀ other : Nat → Except Unit String,
      runTasks [call, other] = [generate_doc call, generate_doc other] := by
  have e : generate_doc call = ⟨.error .rateLimitError, 5, [1, 2, 4, 8]⟩ := by
    simp [generate_doc, MAX_RETRIES, generate_doc_loop, h]
  exact ⟨by rw [e], by rw [e]; rfl, by rw [e], fun other => rfl⟩

/-- Witness for C8 with the always-rate-limited oracle. -/
theorem c8_witness :
    (∀ n : Nat, (fun _ : Nat => (Except.error () : Except Unit String)) n = .error ()) ∧
    (generate_doc (fun _ => .error ())).result = .error .rateLimitError ∧
    (generate_doc (fun _ => .error ())).attemptsMade = MAX_RETRIES := by
  refine ⟨fun _ => rfl, ?_, ?_⟩
  · exact (c8_retry_exhaustion (fun _ => .error ()) (fun _ => rfl)).1
  · exact (c8_retry_exhaustion (fun _ => .error ()) (fun _ => rfl)).2.1

/-- Closed form of the per-definition phase under total generation: every
definition produces a `generate_doc` call, hits go to `all_embeds`, misses
to `new_items`. -/
theorem ingestDefs_total (hash : String → String) (gen : Defn → String)
    (cache : EmbedsCache) (ds : List Defn) :
    ingestDefs hash (fun d => .ok (gen d)) cache ds =
      .ok (ds.filterMap (defHit hash gen cache),
           ds.filterMap (defMiss hash gen cache),
           ds.map defnItemPath) := by
  induction ds with
  | nil => rfl
  | cons d ds ih =>
    simp only [ingestDefs, ih, List.filterMap_cons, List.map_cons]
    cases hc : cacheLookup cache (chunk_id hash (defnItemPath d) (gen d)) with
    | none => simp [defHit, defMiss, hc]
    | some entry => simp [defHit, defMiss, hc]

/-- Closed form of the module-level phase under total generation. -/
theorem ingestMods_total (hash : String → String) (genMod : String → String)
    (cache : EmbedsCache) (ps : List String) :
    ingestMods hash (fun p => .ok (genMod p)) cache ps =
      .ok (ps.filterMap (modHit hash genMod cache),
           ps.filterMap (modMiss hash genMod cache),
           ps.map modItemPath) := by
  induction ps with
  | nil => rfl
  | cons p ps ih =>
    simp only [ingestMods, ih, List.filterMap_cons, List.map_cons]
    cases hc : cacheLookup cache (chunk_id hash (modItemPath p) (genMod p)) with
    | none => simp [modHit, modMiss, hc]
    | some entry => simp [modHit, modMiss, hc]

/-- Closed form of a whole `ingest` run under total generation oracles. -/
theorem ingestRun_total_eq (hash : String → String) (gen : Defn → String)
    (genMod : String → String) (embedVec : String → List Rat)
    (defs : List Defn) (cache : EmbedsCache) :
    ingestRun hash (fun d => .ok (gen d)) (fun p => .ok (genMod p)) embedVec defs cache =
      .ok { allEmbeds := defs.filterMap (defHit hash gen cache) ++
              (modulePaths defs).filterMap (modHit hash genMod cache) ++
              (runNews hash gen genMod defs cache).map
                (fun it => { vector := embedVec it.chunk, path := it.path, chunk := it.chunk }),
            cacheOut := (runNews hash gen genMod defs cache).foldl
              (fun c it => cacheInsert c it.cid { vector := embedVec it.chunk, chunk := it.chunk })
              cache,
            genCalls := defs.map defnItemPath ++ (modulePaths defs).map modItemPath,
            embedBatches := if (runNews hash gen genMod defs cache).isEmpty then 0 else 1,
            embeddedTexts := (runNews hash gen genMod defs cache).map (fun it => it.chunk) } := by
  unfold ingestRun
  rw [ingestDefs_total, ingestMods_total]
  rfl

/-- Inserting a binding makes exactly its key (additionally) present. -/
theorem cacheLookup_cacheInsert_isSome (cache : EmbedsCache) (k key : String)
    (v : CacheEntry) :
    (cacheLookup (cacheInsert cache k v) key).isSome =
      ((k == key) || (cacheLookup cache key).isSome) := by
  cases hk : k == key <;> simp [cacheLookup, cacheInsert, List.find?_cons, hk]

/-- A key is present after the batch-embedding cache update exactly when it
was present before or is the cid of one of the new items. -/
theorem cacheLookup_foldl_isSome (embedVec : String → List Rat) (news : List NewItem) :
    ∀ (cache : EmbedsCache) (key : String),
      (cacheLookup (news.foldl
          (fun c it => cacheInsert c it.cid { vector := embedVec it.chunk, chunk := it.chunk })
          cache) key).isSome =
        ((cacheLookup cache key).isSome || news.any (fun it => it.cid == key)) := by
  induction news with
  | nil => intro cache key; simp
  | cons it its ih =>
    intro cache key
    rw [List.foldl_cons, ih, cacheLookup_cacheInsert_isSome]
    simp [List.any_cons, Bool.or_assoc, Bool.or_comm, Bool.or_left_comm]

/-- After a successful run, the cid of every definition-level and
module-level chunk (as regenerated by the same oracles) is present in the
saved cache: hits were present already, misses were just inserted. -/
theorem ingestRun_total_covers (hash : String → String) (gen : Defn → String)
    (genMod : String → String) (embedVec : String → List Rat)
    (defs : List Defn) (cache : EmbedsCache) (out : IngestOut)
    (h : ingestRun hash (fun d => .ok (gen d)) (fun p => .ok (genMod p)) embedVec defs cache
      = .ok out) :
    (∀ d ∈ defs,
      (cacheLookup out.cacheOut (chunk_id hash (defnItemPath d) (gen d))).isSome = true) ∧
    (∀ p ∈ modulePaths defs,
      (cacheLookup out.cacheOut (chunk_id hash (modItemPath p) (genMod p))).isSome = true) := by
  rw [ingestRun_total_eq] at h
  cases h
  constructor
  · intro d hd
    rw [cacheLookup_foldl_isSome]
    cases hc : cacheLookup cache (chunk_id hash (defnItemPath d) (gen d)) with
    | some entry => simp [hc]
    | none =>
      have hmem : ({ path := defnItemPath d, chunk := gen d,
                     cid := chunk_id hash (defnItemPath d) (gen d) } : NewItem) ∈
          defs.filterMap (defMiss hash gen cache) :=
        List.mem_filterMap.mpr ⟨d, hd, by simp [defMiss, hc]⟩
      simp only [Bool.or_eq_true, List.any_eq_true]
      right
      exact ⟨_, List.mem_append_left _ hmem, by simp⟩
  · intro p hp
    rw [cacheLookup_foldl_isSome]
    cases hc : cacheLookup cache (chunk_id hash (modItemPath p) (genMod p)) with
    | some entry => simp [hc]
    | none =>
      have hmem : ({ path := modItemPath p, chunk := genMod p,
                     cid := chunk_id hash (modItemPath p) (genMod p) } : NewItem) ∈
          (modulePaths defs).filterMap (modMiss hash genMod cache) :=
        List.mem_filterMap.mpr ⟨p, hp, by simp [modMiss, hc]⟩
      simp only [Bool.or_eq_true, List.any_eq_true]
      right
      exact ⟨_, List.mem_append_right _ hmem, by simp⟩

/-- When every definition's cid is already cached, the definition phase
produces no misses. -/
theorem filterMap_defMiss_nil (hash : String → String) (gen : Defn → String)
    (cache : EmbedsCache) (defs : List Defn)
    (hall : ∀ d ∈ defs,
      (cacheLookup cache (chunk_id hash (defnItemPath d) (gen d))).isSome = true) :
    defs.filterMap (defMiss hash gen cache) = [] := by
  rw [List.filterMap_eq_nil_iff]
  intro d hd
  have hs := hall d hd
  cases hc : cacheLookup cache (chunk_id hash (defnItemPath d) (gen d)) with
  | some entry => simp [defMiss, hc]
  | none => rw [hc] at hs; simp at hs

/-- When every module path's cid is already cached, the module phase
produces no misses. -/
theorem filterMap_modMiss_nil (hash : String → String) (genMod : String → String)
    (cache : EmbedsCache) (ps : List String)
    (hall : ∀ p ∈ ps,
      (cacheLookup cache (chunk_id hash (modItemPath p) (genMod p))).isSome = true) :
    ps.filterMap (modMiss hash genMod cache) = [] := by
  rw [List.filterMap_eq_nil_iff]
  intro p hp
  have hs := hall p hp
  cases hc : cacheLookup cache (chunk_id hash (modItemPath p) (genMod p)) with
  | some entry => simp [modMiss, hc]
  | none => rw [hc] at hs; simp at hs

/-- C1 (amended): on a cache hit the stored `(text, vector)` pair is reused
and only the embedding work is skipped — the documentation-generation call
is still made for every definition and module, because the cache key is
computed from the freshly generated text; consequently a second ingestion
of the same repository with the unchanged cache from the first run (and
deterministic generation) makes zero embedding-service batch calls and
embeds no texts, but still makes one generation call per definition and
per module. -/
theorem c1_cache_semantics (hash : String → String) (gen : Defn → String)
    (genMod : String → String) (embedVec : String → List Rat)
    (defs : List Defn) (cache : EmbedsCache) (out1 out2 : IngestOut)
    (h1 : ingestRun hash (fun d => .ok (gen d)) (fun p => .ok (genMod p)) embedVec defs cache
      = .ok out1)
    (h2 : ingestRun hash (fun d => .ok (gen d)) (fun p => .ok (genMod p)) embedVec defs
        out1.cacheOut = .ok out2) :
    out1.genCalls = defs.map defnItemPath ++ (modulePaths defs).map modItemPath ∧
    out2.genCalls = defs.map defnItemPath ++ (modulePaths defs).map modItemPath ∧
    out2.embedBatches = 0 ∧
    out2.embeddedTexts = [] := by
  have hcov := ingestRun_total_covers hash gen genMod embedVec defs cache out1 h1
  have hD : defs.filterMap (defMiss hash gen out1.cacheOut) = [] :=
    filterMap_defMiss_nil hash gen out1.cacheOut defs hcov.1
  have hM : (modulePaths defs).filterMap (modMiss hash genMod out1.cacheOut) = [] :=
    filterMap_modMiss_nil hash genMod out1.cacheOut (modulePaths defs) hcov.2
  rw [ingestRun_total_eq] at h1 h2
  rw [runNews, hD, hM] at h2
  have h1e := Except.ok.inj h1
  have h2e := Except.ok.inj h2
  refine ⟨?_, ?_, ?_, ?_⟩
  · rw [← h1e]
  · rw [← h2e]
  · rw [← h2e]
    rfl
  · rw [← h2e]
    rfl

/-- C1 counterexample: a second ingestion of the same one-definition
repository with the unchanged cache from the first run hits the cache for
every chunk — zero embedding batches, nothing embedded — yet still makes
one documentation-generation call per definition and per module (2 calls
here, not the claimed 0): on a cache hit only the embedding is skipped,
never the generation call, because the cache key hashes the freshly
generated text. -/
theorem c1_counterexample :
    (ingestRun (fun s => s) (fun _ => .ok "DOC") (fun _ => .ok "MOD")
        (fun _ => [1]) c1Defs c1Out1.cacheOut).map
      (fun o => (o.genCalls, o.embedBatches, o.embeddedTexts)) =
      .ok (["f.py::foo", "f.py::file"], 0, []) ∧
    (["f.py::foo", "f.py::file"] : List String).length ≠ 0 := by
  exact ⟨by decide, by decide⟩

/-- Witness for C1 on the concrete two-run example. -/
theorem c1_witness :
    (ingestRun (fun s => s) (fun d => .ok ((fun _ : Defn => "DOC") d))
        (fun p => .ok ((fun _ : String => "MOD") p)) (fun _ => [1]) c1Defs [] = .ok c1Out1) ∧
    (ingestRun (fun s => s) (fun d => .ok ((fun _ : Defn => "DOC") d))
        (fun p => .ok ((fun _ : String => "MOD") p)) (fun _ => [1]) c1Defs c1Out1.cacheOut
      = .ok c1Out2) ∧
    c1Out2.embedBatches = 0 ∧ c1Out2.embeddedTexts = [] := by
  refine ⟨by decide, by decide, ?_, ?_⟩
  · exact (c1_cache_semantics (fun s => s) (fun _ => "DOC") (fun _ => "MOD") (fun _ => [1])
      c1Defs [] c1Out1 c1Out2 (by decide) (by decide)).2.2.1
  · exact (c1_cache_semantics (fun s => s) (fun _ => "DOC") (fun _ => "MOD") (fun _ => [1])
      c1Defs [] c1Out1 c1Out2 (by decide) (by decide)).2.2.2

/-- If any definition in the list fails to generate, the per-definition
phase fails (the exception escapes `future.result()`). -/
theorem ingestDefs_fails_of_mem (hash : String → String)
    (gen : Defn → Except Unit String) (cache : EmbedsCache) (ds : List Defn)
    (h : ∃ d ∈ ds, gen d = .error ()) :
    ingestDefs hash gen cache ds = .error () := by
  induction ds with
  | nil => simp at h
  | cons d ds ih =>
    obtain ⟨d0, hd0, herr⟩ := h
    rcases List.mem_cons.mp hd0 with heq | hmem
    · subst heq
      simp only [ingestDefs, herr]
    · cases hg : gen d with
      | error e => simp only [ingestDefs, hg]
      | ok t =>
        simp only [ingestDefs, hg, ih ⟨d0, hmem, herr⟩]

/-- C2 (amended): a single definition's terminal generation failure aborts
the entire ingestion run — the run returns the error, so no definition
(failing or not) is indexed or persisted by that run. -/
theorem c2_generation_failure_aborts (hash : String → String)
    (gen : Defn → Except Unit String) (genMod : String → Except Unit String)
    (embedVec : String → List Rat) (defs : List Defn) (cache : EmbedsCache)
    (h : ∃ d ∈ defs, gen d = .error ()) :
    ingestRun hash gen genMod embedVec defs cache = .error () := by
  unfold ingestRun
  rw [ingestDefs_fails_of_mem hash gen cache defs h]

/-- C2 counterexample: with two definitions of which the first one's
generation fails terminally, the run does not continue with the failure
recorded and only that definition excluded — the whole `ingest` call
aborts with the error, so the other definition is not processed, indexed,
or persisted either. -/
theorem c2_counterexample :
    ingestRun (fun s => s)
      (fun d => if d.name == "bad" then .error () else .ok "DOC")
      (fun _ => .ok "MOD") (fun _ => [1]) c2Defs [] = .error () := by
  decide

/-- Witness for C2 on the concrete failing-definition example. -/
theorem c2_witness :
    (∃ d ∈ c2Defs,
      (fun d : Defn => if d.name == "bad" then (.error () : Except Unit String) else .ok "DOC") d
        = .error ()) ∧
    ingestRun (fun s => s)
      (fun d : Defn => if d.name == "bad" then .error () else .ok "DOC")
      (fun _ => .ok "MOD") (fun _ => [1]) c2Defs [] = .error () := by
  refine ⟨⟨{ path := "f.py", name := "bad", dtype := "function", code := "x" },
    by decide, by decide⟩, ?_⟩
  exact c2_generation_failure_aborts (fun s => s) _ _ _ c2Defs []
    ⟨{ path := "f.py", name := "bad", dtype := "function", code := "x" },
      by decide, by decide⟩

end RepoChat
